import Mathlib

/-!
Verification of the `archive` RPC API implementation
(`client/rpc-spec-v2/src/archive/archive.rs`).

The Rust module is embedded shallowly:

* machine integers become `Nat` (block numbers are generic unsigned numbers;
  the parsed height is a `u32`, so parsing enforces an explicit `< 2 ^ 32`
  bound; `saturating_add(1)` on an unbounded `Nat` never saturates and is
  embedded as `+ 1`);
* byte sequences become `List Nat`, strings stay `String`;
* fallible backend calls become `Except String` / `Except Unit` valued
  functions;
* the subscription sink is embedded as the trace of calls made on it: each
  RPC method returns the list of `sink.reject` / `sink.send` invocations it
  performs, in order (the spawned future is run to completion);
* the blockchain backend's child-enumeration table is a finite association
  list (the block tree is finite), all other backend entry points are
  arbitrary functions bundled in a `Client` structure.
-/

/-- `sp_blockchain::HashAndNumber`: a block number paired with a block hash. -/
structure HashAndNumber where
  number : Nat
  hash : Nat
  deriving DecidableEq, Repr

/-- `ArchiveEvent<T>` from the archive event module: the one terminal event of
a subscription.  The `ArchiveResult { result }` wrapper of the Rust code is
inlined into the `Done` payload. -/
inductive ArchiveEvent (T : Type) where
  | Done (result : T)
  | Inaccessible
  | Error (error : String)
  deriving DecidableEq, Repr

/-- `ArchiveRpcError`: the pre-spawn rejection reason used by this module. -/
inductive ArchiveRpcError where
  | InvalidParam (param : String)
  deriving DecidableEq, Repr

/-- One interaction with the subscription sink: either `sink.reject e` or
`sink.send ev`. -/
inductive SinkMsg (T : Type) where
  | reject (e : ArchiveRpcError)
  | send (ev : ArchiveEvent T)
  deriving DecidableEq, Repr

/-! ## Hexadecimal utilities -/

/-- Value of one hexadecimal digit, case-insensitive (`none` on a non-digit). -/
def hexVal (c : Char) : Option Nat :=
  if '0' ≤ c ∧ c ≤ '9' then some (c.toNat - 48)
  else if 'a' ≤ c ∧ c ≤ 'f' then some (c.toNat - 87)
  else if 'A' ≤ c ∧ c ≤ 'F' then some (c.toNat - 55)
  else none

/-- Accumulating base-16 digit parser: `none` as soon as a non-digit is hit. -/
def hexDigitsLoop (acc : Nat) : List Char → Option Nat
  | [] => some acc
  | c :: cs =>
    match hexVal c with
    | some v => hexDigitsLoop (acc * 16 + v) cs
    | none => none

/-- `u32::from_str_radix(s, 16)`: an optional leading `'+'`, then a nonempty
run of hexadecimal digits; the value must fit in a `u32` (Rust reports
overflow as an error; over `Nat` the accumulated value never wraps, so the
check is a final bound). -/
def from_str_radix_16 (cs : List Char) : Option Nat :=
  let ds := match cs with
    | '+' :: rest => rest
    | other => other
  if ds.isEmpty then none
  else
    match hexDigitsLoop 0 ds with
    | some v => if v < 4294967296 then some v else none
    | none => none

/-- `str::trim_start_matches("0x")`: strips every repetition of the leading
`"0x"` pattern. -/
def trim_start_matches_0x : List Char → List Char
  | '0' :: 'x' :: rest => trim_start_matches_0x rest
  | cs => cs

/-- `array_bytes::hex2bytes` on byte pairs: every two digits form one byte;
fails on an odd-length digit run or on a non-digit. -/
def hexBytesLoop : List Char → Option (List Nat)
  | [] => some []
  | [_] => none
  | c1 :: c2 :: rest =>
    match hexVal c1, hexVal c2, hexBytesLoop rest with
    | some v1, some v2, some bs => some ((v1 * 16 + v2) :: bs)
    | _, _, _ => none

/-- `array_bytes::hex2bytes`: an optional `"0x"` prefix, then an even-length
run of hexadecimal digits decoded to bytes. -/
def hex2bytes (s : String) : Except Unit (List Nat) :=
  let cs := match s.toList with
    | '0' :: 'x' :: rest => rest
    | other => other
  match hexBytesLoop cs with
  | some bs => .ok bs
  | none => .error ()

/-- `parse_hex_param`: decode a hex parameter, turning a decode failure into
the `InvalidParam` rejection carrying the offending raw string (the Rust
function rejects on the sink and returns `Err`; the caller then stops, so the
rejection is the only sink interaction). -/
def parse_hex_param (param : String) : Except ArchiveRpcError (List Nat) :=
  match hex2bytes param with
  | .ok bytes => .ok bytes
  | .error _ => .error (.InvalidParam param)

/-- Lowercase hex digit character for a value below 16. -/
def hexDigitChar (n : Nat) : Char :=
  if n < 10 then Char.ofNat (48 + n) else Char.ofNat (87 + n)

/-- Two lowercase hex characters per byte, as `HexDisplay` prints. -/
def bytesToHex : List Nat → List Char
  | [] => []
  | b :: bs => hexDigitChar (b / 16 % 16) :: hexDigitChar (b % 16) :: bytesToHex bs

/-- `format!("0x{}", HexDisplay::from(&bytes))`. -/
def hexDisplay (bytes : List Nat) : String :=
  "0x" ++ String.mk (bytesToHex bytes)

/-! ## Reserved child-storage key prefixes -/

/-- Does `pre` occur at the front of `k`? -/
def bytesLead : List Nat → List Nat → Bool
  | [], _ => true
  | _ :: _, [] => false
  | a :: as, b :: bs => a == b && bytesLead as bs

/-- Modelled from the spec: the reserved `child-storage` byte sequence of §3
(the `well_known_keys` constant of the primitives crate, which is outside this
excerpt); literally the bytes of `":child_storage:"`. -/
def childStorageKeyLead : List Nat := ":child_storage:".toList.map Char.toNat

/-- Modelled from the spec: the reserved `default child-storage` byte sequence
of §3 (the `well_known_keys` constant of the primitives crate, outside this
excerpt); literally the bytes of `":child_storage:default:"`. -/
def defaultChildStorageKeyLead : List Nat :=
  ":child_storage:default:".toList.map Char.toNat

/-- `well_known_keys::is_child_storage_key`. -/
def is_child_storage_key (key : List Nat) : Bool :=
  bytesLead childStorageKeyLead key

/-- `well_known_keys::is_default_child_storage_key`. -/
def is_default_child_storage_key (key : List Nat) : Bool :=
  bytesLead defaultChildStorageKeyLead key

/-! ## The block-tree backend and the height-resolver worklist -/

/-- The backend's child-enumeration table: a finite association list from a
block hash to the result of `backend.blockchain().children(hash)`.  A hash
without an entry has no known children (`Ok(vec![])`). -/
abbrev ChildrenMap := List (Nat × Except Unit (List Nat))

/-- `backend.blockchain().children(hash)`. -/
def childrenOf (backend : ChildrenMap) (h : Nat) : Except Unit (List Nat) :=
  match backend.find? (fun e => e.1 == h) with
  | some e => e.2
  | none => .ok []

/-- The children actually traversed by the loop: a failed enumeration
(`let Ok(blocks) = ... else { continue }`) contributes no children. -/
def childList (backend : ChildrenMap) (h : Nat) : List Nat :=
  match childrenOf backend h with
  | .ok blocks => blocks
  | .error _ => []

/-- Length of the child list recorded in one table entry. -/
def childLen : Nat × Except Unit (List Nat) → Nat
  | (_, .ok l) => l.length
  | (_, .error _) => 0

/-- A strict upper bound on the branching of the children table. -/
def branchBound (backend : ChildrenMap) : Nat :=
  1 + backend.foldr (fun e acc => max (childLen e) acc) 0

theorem branchBound_pos (backend : ChildrenMap) : 0 < branchBound backend := by
  unfold branchBound; omega

theorem childLen_lt_branchBound (backend : ChildrenMap) :
    ∀ e ∈ backend, childLen e < branchBound backend := by
  intro e he
  unfold branchBound
  induction backend with
  | nil => cases he
  | cons a l ih =>
    rcases List.mem_cons.mp he with rfl | hmem
    · simp only [List.foldr_cons]; omega
    · have := ih hmem
      simp only [List.foldr_cons]
      omega

theorem childList_length_lt (backend : ChildrenMap) (h : Nat) :
    (childList backend h).length < branchBound backend := by
  unfold childList childrenOf
  cases hf : backend.find? (fun e => e.1 == h) with
  | none => simpa using branchBound_pos backend
  | some e =>
    have hmem := List.mem_of_find?_eq_some hf
    have := childLen_lt_branchBound backend e hmem
    cases e with
    | mk h2 r =>
      cases r with
      | ok l => simpa [childLen] using this
      | error u => simpa using branchBound_pos backend

/-- Worklist measure: a frontier node at number `n` weighs `B ^ (target+1-n)`. -/
def stackMeasure (B target : Nat) : List HashAndNumber → Nat
  | [] => 0
  | p :: rest => B ^ (target + 1 - p.number) + stackMeasure B target rest

theorem stackMeasure_append (B target : Nat) (l1 l2 : List HashAndNumber) :
    stackMeasure B target (l1 ++ l2) =
      stackMeasure B target l1 + stackMeasure B target l2 := by
  induction l1 with
  | nil => simp [stackMeasure]
  | cons p l ih => simp [stackMeasure, ih]; omega

theorem stackMeasure_reverse (B target : Nat) (l : List HashAndNumber) :
    stackMeasure B target l.reverse = stackMeasure B target l := by
  induction l with
  | nil => rfl
  | cons p l ih =>
    simp [List.reverse_cons, stackMeasure_append, stackMeasure, ih]
    omega

theorem stackMeasure_children (B target m : Nat) (cs : List Nat) :
    stackMeasure B target (cs.map fun h => HashAndNumber.mk m h) =
      cs.length * B ^ (target + 1 - m) := by
  induction cs with
  | nil => simp [stackMeasure]
  | cons c l ih =>
    simp [stackMeasure, ih]
    ring

theorem measure_tail_lt (B target : Nat) (hB : 0 < B) (p : HashAndNumber)
    (rest : List HashAndNumber) :
    stackMeasure B target rest < stackMeasure B target (p :: rest) := by
  have : 0 < B ^ (target + 1 - p.number) := Nat.pos_pow_of_pos _ hB
  simp only [stackMeasure]
  omega

theorem measure_expand_lt (backend : ChildrenMap) (target : Nat)
    (p : HashAndNumber) (rest : List HashAndNumber)
    (hp : p.number ≤ target) :
    stackMeasure (branchBound backend) target
        (((childList backend p.hash).map
            fun h => HashAndNumber.mk (p.number + 1) h).reverse ++ rest) <
      stackMeasure (branchBound backend) target (p :: rest) := by
  rw [stackMeasure_append, stackMeasure_reverse, stackMeasure_children]
  have hlen := childList_length_lt backend p.hash
  have hB := branchBound_pos backend
  have h1 : target + 1 - (p.number + 1) = target - p.number := by omega
  have h2 : target + 1 - p.number = (target - p.number) + 1 := by omega
  rw [h1]
  simp only [stackMeasure, h2]
  have hx : 0 < branchBound backend ^ (target - p.number) :=
    Nat.pos_pow_of_pos _ hB
  have := Nat.mul_lt_mul_of_lt_of_le hlen
    (Nat.le_refl (branchBound backend ^ (target - p.number))) hx
  have hmul : (childList backend p.hash).length *
      branchBound backend ^ (target - p.number) <
      branchBound backend ^ ((target - p.number) + 1) := by
    rw [pow_succ]
    calc (childList backend p.hash).length *
        branchBound backend ^ (target - p.number)
        < branchBound backend * branchBound backend ^ (target - p.number) :=
          Nat.mul_lt_mul_of_pos_right hlen hx
      _ = branchBound backend ^ (target - p.number) * branchBound backend := by
          ring
  omega

/-- The worklist invariant survives popping the top frame. -/
theorem invTail {target : Nat} {p : HashAndNumber} {rest : List HashAndNumber}
    (hinv : ∀ q ∈ p :: rest, q.number ≤ target) :
    ∀ q ∈ rest, q.number ≤ target :=
  fun q hq => hinv q (List.mem_cons_of_mem p hq)

/-- The worklist invariant survives expanding the top frame: each pushed child
sits at `parent.number + 1`, which stays at or below the target because the
expanded frame was strictly below it. -/
theorem invPush {backend : ChildrenMap} {target : Nat} {p : HashAndNumber}
    {rest : List HashAndNumber}
    (hinv : ∀ q ∈ p :: rest, q.number ≤ target) (hne : p.number ≠ target) :
    ∀ q ∈ ((childList backend p.hash).map
        fun h => HashAndNumber.mk (p.number + 1) h).reverse ++ rest,
      q.number ≤ target := by
  intro q hq
  rcases List.mem_append.mp hq with hq | hq
  · rcases List.mem_map.mp (List.mem_reverse.mp hq) with ⟨c, _, rfl⟩
    exact Nat.succ_le_of_lt
      (Nat.lt_of_le_of_ne (hinv p (List.mem_cons_self p rest)) hne)
  · exact hinv q (List.mem_cons_of_mem p hq)

/-- The worklist loop of `get_blocks_by_height`: pop a frame; a frame at the
target height is recorded and not expanded; otherwise its children (none when
the enumeration failed) are pushed at `number + 1`.  The hypothesis `hinv` is
the domain on which the source loop is well defined: the sole caller seeds the
loop with the finalized block, whose number is strictly below the target. -/
def gbhLoop (backend : ChildrenMap) (target : Nat)
    (stack : List HashAndNumber) (acc : List Nat)
    (hinv : ∀ p ∈ stack, p.number ≤ target) : List Nat :=
  match stack, hinv with
  | [], _ => acc
  | p :: rest, hinv =>
    if hne : p.number = target then
      gbhLoop backend target rest (acc ++ [p.hash]) (invTail hinv)
    else
      gbhLoop backend target
        (((childList backend p.hash).map
            fun h => HashAndNumber.mk (p.number + 1) h).reverse ++ rest)
        acc (invPush hinv hne)
termination_by stackMeasure (branchBound backend) target stack
decreasing_by
· exact measure_tail_lt _ _ (branchBound_pos backend) _ _
· exact measure_expand_lt backend target p rest (hinv p (List.mem_cons_self p rest))

/-- `get_blocks_by_height`: seed the worklist with `parent` and run the loop.
Outside the domain `parent.number ≤ target_height` (never reached by the sole
caller, which seeds with the finalized block on the strict slow path) the
traversal matches nothing and the result is empty. -/
def get_blocks_by_height (backend : ChildrenMap) (parent : HashAndNumber)
    (target_height : Nat) : List Nat :=
  if h : parent.number ≤ target_height then
    gbhLoop backend target_height [parent] []
      (fun q hq => by
        rcases List.mem_cons.mp hq with rfl | hq
        · exact h
        · cases hq)
  else []

/-- The same worklist loop, instrumented with a step budget instead of the
invariant: `none` means the budget ran out before the frontier was exhausted.
One unit of budget is one pop. -/
def gbhLoopFuel (backend : ChildrenMap) (target : Nat) :
    Nat → List HashAndNumber → List Nat → Option (List Nat)
  | _, [], acc => some acc
  | 0, _ :: _, _ => none
  | fuel + 1, p :: rest, acc =>
    if p.number = target then
      gbhLoopFuel backend target fuel rest (acc ++ [p.hash])
    else
      gbhLoopFuel backend target fuel
        (((childList backend p.hash).map
            fun h => HashAndNumber.mk (p.number + 1) h).reverse ++ rest)
        acc

/-- Exhaustive level-wise reachability in the traversed tree: the blocks
reached from `h` by exactly `d` child steps (a failed enumeration contributes
no children, as in the loop). -/
def reachAt (backend : ChildrenMap) : Nat → Nat → List Nat
  | 0, h => [h]
  | d + 1, h => ((childList backend h).map fun c => reachAt backend d c).flatten

/-- The spec's height-resolver result set (§4.2, invariant 4): the descendants
of `root` at height `H`, following child edges level by level; empty when the
root already sits above `H`. -/
def specDescendantsAtHeight (backend : ChildrenMap) (root : HashAndNumber)
    (H : Nat) : List Nat :=
  if root.number ≤ H then reachAt backend (H - root.number) root.hash else []

/-- Modelled from the spec: a string "parseable as hexadecimal (optionally
0x-prefixed)" (§4.4, §6) — an optional `"0x"` prefix followed by a nonempty
run of hexadecimal digits. -/
def specIsHexParseable (s : String) : Bool :=
  let cs := match s.toList with
    | '0' :: 'x' :: rest => rest
    | other => other
  !cs.isEmpty && cs.all fun c => (hexVal c).isSome

theorem gbhLoop_nil (backend : ChildrenMap) (target : Nat) (acc : List Nat)
    (hinv : ∀ p ∈ ([] : List HashAndNumber), p.number ≤ target) :
    gbhLoop backend target [] acc hinv = acc := by
  rw [gbhLoop]

theorem gbhLoop_cons_target (backend : ChildrenMap) (target : Nat)
    (p : HashAndNumber) (rest : List HashAndNumber) (acc : List Nat)
    (hinv : ∀ q ∈ p :: rest, q.number ≤ target) (heq : p.number = target) :
    gbhLoop backend target (p :: rest) acc hinv =
      gbhLoop backend target rest (acc ++ [p.hash]) (invTail hinv) := by
  rw [gbhLoop]
  simp [heq]

theorem gbhLoop_cons_expand (backend : ChildrenMap) (target : Nat)
    (p : HashAndNumber) (rest : List HashAndNumber) (acc : List Nat)
    (hinv : ∀ q ∈ p :: rest, q.number ≤ target) (hne : p.number ≠ target) :
    gbhLoop backend target (p :: rest) acc hinv =
      gbhLoop backend target
        (((childList backend p.hash).map
            fun h => HashAndNumber.mk (p.number + 1) h).reverse ++ rest)
        acc (invPush hinv hne) := by
  rw [gbhLoop]
  simp [hne]

theorem mem_reachAt_succ (backend : ChildrenMap) (d h x : Nat) :
    x ∈ reachAt backend (d + 1) h ↔
      ∃ c ∈ childList backend h, x ∈ reachAt backend d c := by
  simp [reachAt, List.mem_flatten, List.mem_map]

theorem gbhLoop_mem_aux (backend : ChildrenMap) (target : Nat) :
    ∀ N stack acc hinv x,
      stackMeasure (branchBound backend) target stack ≤ N →
      (x ∈ gbhLoop backend target stack acc hinv ↔
        x ∈ acc ∨ ∃ p ∈ stack, x ∈ reachAt backend (target - p.number) p.hash) := by
  intro N
  induction N with
  | zero =>
    intro stack acc hinv x hm
    match stack, hinv with
    | [], hinv => simp [gbhLoop_nil]
    | p :: rest, hinv =>
      exfalso
      have h1 : 0 < branchBound backend ^ (target + 1 - p.number) :=
        Nat.pos_pow_of_pos _ (branchBound_pos backend)
      simp only [stackMeasure] at hm
      omega
  | succ n ih =>
    intro stack acc hinv x hm
    match stack, hinv with
    | [], hinv => simp [gbhLoop_nil]
    | p :: rest, hinv =>
      by_cases heq : p.number = target
      · rw [gbhLoop_cons_target backend target p rest acc hinv heq]
        have hlt := measure_tail_lt (branchBound backend) target
          (branchBound_pos backend) p rest
        rw [ih rest (acc ++ [p.hash]) (invTail hinv) x (by omega)]
        have h0 : target - p.number = 0 := by omega
        simp only [h0, reachAt, List.mem_singleton, List.mem_append,
          List.mem_cons]
        constructor
        · rintro (⟨hx | hx⟩ | ⟨q, hq, hr⟩)
          · exact Or.inl hx
          · exact Or.inr ⟨p, Or.inl rfl, by simpa [h0, reachAt] using hx⟩
          · exact Or.inr ⟨q, Or.inr hq, hr⟩
        · rintro (hx | ⟨q, hq | hq, hr⟩)
          · exact Or.inl (Or.inl hx)
          · subst hq
            exact Or.inl (Or.inr (by simpa [h0, reachAt] using hr))
          · exact Or.inr ⟨q, hq, hr⟩
      · rw [gbhLoop_cons_expand backend target p rest acc hinv heq]
        have hple : p.number ≤ target := hinv p (List.mem_cons_self p rest)
        have hlt := measure_expand_lt backend target p rest hple
        rw [ih _ acc (invPush hinv heq) x (by omega)]
        have hd : target - p.number = (target - (p.number + 1)) + 1 := by omega
        constructor
        · rintro (hx | ⟨q, hq, hr⟩)
          · exact Or.inl hx
          · rcases List.mem_append.mp hq with hq | hq
            · rcases List.mem_map.mp (List.mem_reverse.mp hq) with ⟨c, hc, rfl⟩
              refine Or.inr ⟨p, List.mem_cons_self p rest, ?_⟩
              rw [hd, mem_reachAt_succ]
              exact ⟨c, hc, hr⟩
            · exact Or.inr ⟨q, List.mem_cons_of_mem p hq, hr⟩
        · rintro (hx | ⟨q, hq, hr⟩)
          · exact Or.inl hx
          · rcases List.mem_cons.mp hq with rfl | hq
            · rw [hd, mem_reachAt_succ] at hr
              rcases hr with ⟨c, hc, hxc⟩
              refine Or.inr ⟨HashAndNumber.mk (q.number + 1) c, ?_, hxc⟩
              exact List.mem_append.mpr (Or.inl (List.mem_reverse.mpr
                (List.mem_map.mpr ⟨c, hc, rfl⟩)))
            · exact Or.inr ⟨q, List.mem_append.mpr (Or.inr hq), hr⟩

/-- Membership in the worklist result: exactly the blocks reached from some
frontier frame by `target - number` child steps. -/
theorem gbhLoop_mem (backend : ChildrenMap) (target : Nat)
    (stack : List HashAndNumber) (acc : List Nat)
    (hinv : ∀ p ∈ stack, p.number ≤ target) (x : Nat) :
    x ∈ gbhLoop backend target stack acc hinv ↔
      x ∈ acc ∨ ∃ p ∈ stack, x ∈ reachAt backend (target - p.number) p.hash :=
  gbhLoop_mem_aux backend target
    (stackMeasure (branchBound backend) target stack) stack acc hinv x
    (Nat.le_refl _)

theorem get_blocks_by_height_mem (backend : ChildrenMap)
    (parent : HashAndNumber) (target : Nat) (hle : parent.number ≤ target)
    (x : Nat) :
    x ∈ get_blocks_by_height backend parent target ↔
      x ∈ reachAt backend (target - parent.number) parent.hash := by
  unfold get_blocks_by_height
  rw [dif_pos hle, gbhLoop_mem]
  simp

theorem gbhLoopFuel_terminates_aux (backend : ChildrenMap) (target : Nat) :
    ∀ N stack acc hinv,
      stackMeasure (branchBound backend) target stack ≤ N →
      ∃ fuel, gbhLoopFuel backend target fuel stack acc =
        some (gbhLoop backend target stack acc hinv) := by
  intro N
  induction N with
  | zero =>
    intro stack acc hinv hm
    match stack, hinv with
    | [], hinv => exact ⟨0, by simp [gbhLoopFuel, gbhLoop_nil]⟩
    | p :: rest, hinv =>
      exfalso
      have h1 : 0 < branchBound backend ^ (target + 1 - p.number) :=
        Nat.pos_pow_of_pos _ (branchBound_pos backend)
      simp only [stackMeasure] at hm
      omega
  | succ n ih =>
    intro stack acc hinv hm
    match stack, hinv with
    | [], hinv => exact ⟨0, by simp [gbhLoopFuel, gbhLoop_nil]⟩
    | p :: rest, hinv =>
      by_cases heq : p.number = target
      · have hlt := measure_tail_lt (branchBound backend) target
          (branchBound_pos backend) p rest
        rcases ih rest (acc ++ [p.hash]) (invTail hinv) (by omega) with ⟨f, hf⟩
        refine ⟨f + 1, ?_⟩
        rw [gbhLoop_cons_target backend target p rest acc hinv heq]
        simpa [gbhLoopFuel, heq] using hf
      · have hple : p.number ≤ target := hinv p (List.mem_cons_self p rest)
        have hlt := measure_expand_lt backend target p rest hple
        rcases ih (((childList backend p.hash).map
              fun h => HashAndNumber.mk (p.number + 1) h).reverse ++ rest)
            acc (invPush hinv heq) (by omega) with ⟨f, hf⟩
        refine ⟨f + 1, ?_⟩
        rw [gbhLoop_cons_expand backend target p rest acc hinv heq]
        simpa [gbhLoopFuel, heq] using hf

/-! ## The client and the four subscription operations -/

/-- The abstract client/backend handle (§6): every entry point this module
calls, as arbitrary functions.  Lookup results are byte sequences already
encoded by the (opaque) block codec: `block` yields the bytes of
`signed_block.block.extrinsics().encode()` and `header` the bytes of
`header.encode()`. -/
structure Client where
  finalized_number : Nat
  finalized_hash : Nat
  block_hash : Nat → Except String (Option Nat)
  block : Nat → Except String (Option (List Nat))
  header : Nat → Except String (Option (List Nat))
  storage : Nat → List Nat → Except String (Option (List Nat))
  child_storage : Nat → List Nat → List Nat → Except String (Option (List Nat))

/-- `archive_unstable_body`: the full sink trace of one `body` subscription. -/
def archive_unstable_body (client : Client) (hash : Nat) :
    List (SinkMsg String) :=
  match client.block hash with
  | .ok (some extrinsicsEncoded) =>
      [.send (.Done (hexDisplay extrinsicsEncoded))]
  | .ok none => [.send .Inaccessible]
  | .error e => [.send (.Error e)]

/-- `archive_unstable_header`: the full sink trace of one `header`
subscription. -/
def archive_unstable_header (client : Client) (hash : Nat) :
    List (SinkMsg String) :=
  match client.header hash with
  | .ok (some headerEncoded) => [.send (.Done (hexDisplay headerEncoded))]
  | .ok none => [.send .Inaccessible]
  | .error e => [.send (.Error e)]

/-- `archive_unstable_hash_by_height`: the full sink trace of one
`hashByHeight` subscription. -/
def archive_unstable_hash_by_height (client : Client) (backend : ChildrenMap)
    (height : String) : List (SinkMsg (List Nat)) :=
  match from_str_radix_16 (trim_start_matches_0x height.toList) with
  | none => [.reject (.InvalidParam height)]
  | some height_num =>
    if client.finalized_number ≥ height_num then
      let result := match client.block_hash height_num with
        | .ok (some hash) => [hash]
        | _ => []
      [.send (.Done result)]
    else
      [.send (.Done (get_blocks_by_height backend
        (HashAndNumber.mk client.finalized_number client.finalized_hash)
        height_num))]

/-- `archive_unstable_storage`: the full sink trace of one `storage`
subscription. -/
def archive_unstable_storage (client : Client) (hash : Nat) (key : String)
    (child_key : Option String) : List (SinkMsg (Option String)) :=
  match parse_hex_param key with
  | .error e => [.reject e]
  | .ok keyBytes =>
    match child_key with
    | some ck =>
      match parse_hex_param ck with
      | .error e => [.reject e]
      | .ok ckBytes =>
        if is_default_child_storage_key ckBytes || is_child_storage_key ckBytes
        then [.send (.Done none)]
        else
          match client.child_storage hash ckBytes keyBytes with
          | .ok result => [.send (.Done (result.map hexDisplay))]
          | .error e => [.send (.Error e)]
    | none =>
      if is_default_child_storage_key keyBytes || is_child_storage_key keyBytes
      then [.send (.Done none)]
      else
        match client.storage hash keyBytes with
        | .ok result => [.send (.Done (result.map hexDisplay))]
        | .error e => [.send (.Error e)]

/-- Decidable equality for `Except`, to let closed witnesses evaluate the
parsers by `decide`. -/
instance {ε α : Type} [DecidableEq ε] [DecidableEq α] :
    DecidableEq (Except ε α) := fun a b =>
  match a, b with
  | .ok x, .ok y =>
    if h : x = y then isTrue (by rw [h]) else isFalse (by simp [h])
  | .error x, .error y =>
    if h : x = y then isTrue (by rw [h]) else isFalse (by simp [h])
  | .ok _, .error _ => isFalse (by simp)
  | .error _, .ok _ => isFalse (by simp)

/-! ## Concrete instances used by closed witnesses -/

/-- A client whose every lookup finds nothing. -/
def clientNone : Client where
  finalized_number := 0
  finalized_hash := 0
  block_hash := fun _ => .ok none
  block := fun _ => .ok none
  header := fun _ => .ok none
  storage := fun _ _ => .ok none
  child_storage := fun _ _ _ => .ok none

/-- Fast-path witness client: finalization at height 5, canonical hash 42. -/
def clientW2 : Client :=
  { clientNone with finalized_number := 5, block_hash := fun _ => .ok (some 42) }

/-- Storage-translation witness client: child trie holds a value, the main
trie lookup fails. -/
def clientW7 : Client :=
  { clientNone with
    storage := fun _ _ => .error "db",
    child_storage := fun _ _ _ => .ok (some [171]) }

/-- Body/header witness client: the block is found, the header lookup fails. -/
def clientW8 : Client :=
  { clientNone with
    block := fun _ => .ok (some [1, 2]),
    header := fun _ => .error "io" }

/-- Child-branch witness client: the child trie holds a value everywhere. -/
def clientW10 : Client :=
  { clientNone with child_storage := fun _ _ _ => .ok (some [7]) }

/-- Two sibling children of the finalized root. -/
def backendFork : ChildrenMap := [(0, .ok [1, 2])]

/-- A root with two branches, one of which fails to enumerate. -/
def backendPruned : ChildrenMap := [(0, .ok [1, 2]), (1, .error ()), (2, .ok [4])]

/-- A single chain of length one. -/
def backendChain : ChildrenMap := [(0, .ok [1])]

/-! ## The claims -/

/-- Claim C3: every call to `body`, `hashByHeight`, `header` or `storage`
performs exactly one terminal sink interaction — either one pre-spawn
rejection or one `ArchiveEvent` — never zero, never more than one. -/
theorem c3_exactly_one_terminal_outcome :
    ∀ (client : Client) (backend : ChildrenMap) (hash : Nat)
      (height key : String) (child_key : Option String),
      (archive_unstable_body client hash).length = 1 ∧
      (archive_unstable_hash_by_height client backend height).length = 1 ∧
      (archive_unstable_header client hash).length = 1 ∧
      (archive_unstable_storage client hash key child_key).length = 1 := by
  intro client backend hash height key child_key
  refine ⟨?_, ?_, ?_, ?_⟩
  · unfold archive_unstable_body
    cases hb : client.block hash with
    | error e => rfl
    | ok r => cases r <;> rfl
  · unfold archive_unstable_hash_by_height
    cases hp : from_str_radix_16 (trim_start_matches_0x height.toList) with
    | none => rfl
    | some H =>
      by_cases hge : client.finalized_number ≥ H
      · simp [hge]
      · simp [hge]
  · unfold archive_unstable_header
    cases hb : client.header hash with
    | error e => rfl
    | ok r => cases r <;> rfl
  · unfold archive_unstable_storage
    repeat' split
    all_goals rfl

/-- Claim C4: a storage query whose effective key carries a reserved
child-storage lead — the supplied child descriptor's key, or the main key when
no descriptor is supplied — answers `Done` with an absent result, for every
client (so the backend's storage contents are never consulted). -/
theorem c4_reserved_lead_short_circuit (client : Client) (hash : Nat)
    (key ck : String) (keyBytes ckBytes : List Nat) :
    (hex2bytes key = .ok keyBytes → hex2bytes ck = .ok ckBytes →
      (is_default_child_storage_key ckBytes ||
        is_child_storage_key ckBytes) = true →
      archive_unstable_storage client hash key (some ck) =
        [.send (.Done none)]) ∧
    (hex2bytes key = .ok keyBytes →
      (is_default_child_storage_key keyBytes ||
        is_child_storage_key keyBytes) = true →
      archive_unstable_storage client hash key none = [.send (.Done none)]) := by
  constructor
  · intro hk hck hres
    simp [archive_unstable_storage, parse_hex_param, hk, hck, hres]
  · intro hk hres
    simp [archive_unstable_storage, parse_hex_param, hk, hres]

theorem c4_witness :
    archive_unstable_storage clientW10 0 "00"
      (some "3a6368696c645f73746f726167653a") = [.send (.Done none)] ∧
    archive_unstable_storage clientW10 0
      "3a6368696c645f73746f726167653a64656661756c743a" none =
      [.send (.Done none)] :=
  ⟨(c4_reserved_lead_short_circuit clientW10 0 "00"
      "3a6368696c645f73746f726167653a" [0] childStorageKeyLead).1
      (by decide) (by decide) (by decide),
   (c4_reserved_lead_short_circuit clientW10 0
      "3a6368696c645f73746f726167653a64656661756c743a" ""
      defaultChildStorageKeyLead []).2 (by decide) (by decide)⟩

/-- Claim C7: a storage query that reaches the backend translates the lookup
outcome identically in the child-trie and the main-trie branch: a present
value becomes `Done` with its hex encoding, an absent value becomes `Done`
with an absent payload, and a backend failure becomes an `Error` event
carrying the description. -/
theorem c7_storage_outcome_translation (client : Client) (hash : Nat)
    (key ck : String) (keyBytes ckBytes v : List Nat) (e : String)
    (hk : hex2bytes key = .ok keyBytes)
    (hck : hex2bytes ck = .ok ckBytes) :
    ((is_default_child_storage_key ckBytes ||
        is_child_storage_key ckBytes) = false →
      (client.child_storage hash ckBytes keyBytes = .ok (some v) →
        archive_unstable_storage client hash key (some ck) =
          [.send (.Done (some (hexDisplay v)))]) ∧
      (client.child_storage hash ckBytes keyBytes = .ok none →
        archive_unstable_storage client hash key (some ck) =
          [.send (.Done none)]) ∧
      (client.child_storage hash ckBytes keyBytes = .error e →
        archive_unstable_storage client hash key (some ck) =
          [.send (.Error e)])) ∧
    ((is_default_child_storage_key keyBytes ||
        is_child_storage_key keyBytes) = false →
      (client.storage hash keyBytes = .ok (some v) →
        archive_unstable_storage client hash key none =
          [.send (.Done (some (hexDisplay v)))]) ∧
      (client.storage hash keyBytes = .ok none →
        archive_unstable_storage client hash key none =
          [.send (.Done none)]) ∧
      (client.storage hash keyBytes = .error e →
        archive_unstable_storage client hash key none =
          [.send (.Error e)])) := by
  constructor
  · intro hres
    refine ⟨?_, ?_, ?_⟩ <;> intro hq <;>
      simp [archive_unstable_storage, parse_hex_param, hk, hck, hres, hq]
  · intro hres
    refine ⟨?_, ?_, ?_⟩ <;> intro hq <;>
      simp [archive_unstable_storage, parse_hex_param, hk, hres, hq]

theorem c7_witness :
    archive_unstable_storage clientW7 0 "00" (some "11") =
      [.send (.Done (some (hexDisplay [171])))] ∧
    archive_unstable_storage clientW7 0 "00" none = [.send (.Error "db")] :=
  ⟨((c7_storage_outcome_translation clientW7 0 "00" "11" [0] [17] [171] "db"
      (by decide) (by decide)).1 (by decide)).1 rfl,
   ((c7_storage_outcome_translation clientW7 0 "00" "11" [0] [17] [171] "db"
      (by decide) (by decide)).2 (by decide)).2.2 rfl⟩

/-- Claim C8: `body` and `header` translate the backend lookup to events:
found → `Done` carrying the hex-encoded bytes (for `body`, the encoded
transaction list), not found → `Inaccessible`, backend error → `Error`
carrying the description. -/
theorem c8_body_header_translation (client : Client) (hash : Nat)
    (bytes : List Nat) (e : String) :
    (client.block hash = .ok (some bytes) →
      archive_unstable_body client hash =
        [.send (.Done (hexDisplay bytes))]) ∧
    (client.block hash = .ok none →
      archive_unstable_body client hash = [.send .Inaccessible]) ∧
    (client.block hash = .error e →
      archive_unstable_body client hash = [.send (.Error e)]) ∧
    (client.header hash = .ok (some bytes) →
      archive_unstable_header client hash =
        [.send (.Done (hexDisplay bytes))]) ∧
    (client.header hash = .ok none →
      archive_unstable_header client hash = [.send .Inaccessible]) ∧
    (client.header hash = .error e →
      archive_unstable_header client hash = [.send (.Error e)]) := by
  refine ⟨?_, ?_, ?_, ?_, ?_, ?_⟩ <;> intro h <;>
    simp [archive_unstable_body, archive_unstable_header, h]

theorem c8_witness :
    archive_unstable_body clientW8 5 = [.send (.Done (hexDisplay [1, 2]))] ∧
    archive_unstable_header clientW8 5 = [.send (.Error "io")] :=
  ⟨(c8_body_header_translation clientW8 5 [1, 2] "io").1 rfl,
   (c8_body_header_translation clientW8 5 [1, 2] "io").2.2.2.2.2 rfl⟩

/-- Claim C10: when a child descriptor is supplied and its key is not
reserved, the main key is never checked against the reserved leads: for every
main key, reserved-looking or not, the child-trie lookup runs and its outcome
is translated normally. -/
theorem c10_child_branch_skips_main_key_check (client : Client) (hash : Nat)
    (key ck : String) (keyBytes ckBytes : List Nat)
    (hk : hex2bytes key = .ok keyBytes)
    (hck : hex2bytes ck = .ok ckBytes)
    (hres : (is_default_child_storage_key ckBytes ||
      is_child_storage_key ckBytes) = false) :
    archive_unstable_storage client hash key (some ck) =
      match client.child_storage hash ckBytes keyBytes with
      | .ok result => [.send (.Done (result.map hexDisplay))]
      | .error e => [.send (.Error e)] := by
  simp [archive_unstable_storage, parse_hex_param, hk, hck, hres]

theorem c10_witness :
    is_child_storage_key childStorageKeyLead = true ∧
    archive_unstable_storage clientW10 0 "3a6368696c645f73746f726167653a"
      (some "11") = [.send (.Done (some (hexDisplay [7])))] :=
  ⟨by decide,
   (c10_child_branch_skips_main_key_check clientW10 0
      "3a6368696c645f73746f726167653a" "11" childStorageKeyLead [17]
      (by decide) (by decide) (by decide)).trans rfl⟩

/-- Claim C2: for a target height at or below the finalized height,
`hashByHeight` emits one `Done` event whose payload is the canonical backend
lookup — a singleton when the backend produces a hash, empty otherwise — and
in particular has size at most one. -/
theorem c2_fast_path_determinism (client : Client) (backend : ChildrenMap)
    (height : String) (H : Nat)
    (hparse : from_str_radix_16 (trim_start_matches_0x height.toList) = some H)
    (hle : H ≤ client.finalized_number) :
    archive_unstable_hash_by_height client backend height =
      [.send (.Done (match client.block_hash H with
        | .ok (some h) => [h]
        | _ => []))] ∧
    (match client.block_hash H with
      | .ok (some h) => [h]
      | _ => ([] : List Nat)).length ≤ 1 := by
  constructor
  · simp only [archive_unstable_hash_by_height, hparse, ge_iff_le, hle,
      if_true]
  · cases hb : client.block_hash H with
    | error e => simp
    | ok r => cases r <;> simp

theorem c2_witness :
    (3 : Nat) ≤ clientW2.finalized_number ∧
    archive_unstable_hash_by_height clientW2 [] "0x03" = [.send (.Done [42])] :=
  ⟨by decide,
    ((c2_fast_path_determinism clientW2 [] "0x03" 3 (by decide)
      (by decide)).1).trans rfl⟩

/-- Claim C9: the slow-path worklist traversal terminates on every finite
children table whenever the seed's height does not exceed the target: some
finite pop budget lets the literal loop (`gbhLoopFuel`) run the frontier to
exhaustion and return the traversal's result. -/
theorem c9_worklist_terminates (backend : ChildrenMap)
    (parent : HashAndNumber) (target : Nat) (hle : parent.number ≤ target) :
    ∃ fuel, gbhLoopFuel backend target fuel [parent] [] =
      some (get_blocks_by_height backend parent target) := by
  unfold get_blocks_by_height
  rw [dif_pos hle]
  exact gbhLoopFuel_terminates_aux backend target
    (stackMeasure (branchBound backend) target [parent]) [parent] [] _
    (Nat.le_refl _)

theorem c9_witness :
    (0 : Nat) ≤ 1 ∧
    ∃ fuel, gbhLoopFuel backendChain 1 fuel [HashAndNumber.mk 0 0] [] =
      some (get_blocks_by_height backendChain (HashAndNumber.mk 0 0) 1) :=
  ⟨by decide,
   c9_worklist_terminates backendChain (HashAndNumber.mk 0 0) 1 (by decide)⟩

/-- Claim C1: for a target height strictly above the finalized height, with no
failing child enumeration in the table, `hashByHeight` emits one `Done` event
whose payload is, as a set, exactly the descendants of the finalized block at
that height. -/
theorem c1_fork_enumeration_set (client : Client) (backend : ChildrenMap)
    (height : String) (H : Nat)
    (hparse : from_str_radix_16 (trim_start_matches_0x height.toList) = some H)
    (hgt : client.finalized_number < H)
    (herr : ∀ e ∈ backend, e.2 ≠ .error ()) :
    ∃ r, archive_unstable_hash_by_height client backend height =
        [.send (.Done r)] ∧
      ∀ x, x ∈ r ↔ x ∈ specDescendantsAtHeight backend
        (HashAndNumber.mk client.finalized_number client.finalized_hash) H := by
  refine ⟨get_blocks_by_height backend
    (HashAndNumber.mk client.finalized_number client.finalized_hash) H,
    ?_, ?_⟩
  · simp only [archive_unstable_hash_by_height, hparse, ge_iff_le,
      Nat.not_le.mpr hgt, if_false]
  · intro x
    rw [get_blocks_by_height_mem backend _ H (Nat.le_of_lt hgt) x]
    unfold specDescendantsAtHeight
    rw [if_pos (Nat.le_of_lt hgt)]

theorem c1_witness :
    from_str_radix_16 (trim_start_matches_0x "0x1".toList) = some 1 ∧
    clientNone.finalized_number < 1 ∧
    ∃ r, archive_unstable_hash_by_height clientNone backendFork "0x1" =
        [.send (.Done r)] ∧
      ∀ x, x ∈ r ↔ x ∈ specDescendantsAtHeight backendFork
        (HashAndNumber.mk clientNone.finalized_number
          clientNone.finalized_hash) 1 :=
  ⟨by decide, by decide,
   c1_fork_enumeration_set clientNone backendFork "0x1" 1 (by decide)
     (by decide) (by decide)⟩

/-- Claim C6: a failed child enumeration on one frontier node only prunes that
branch: every block reachable from the finalized seed through successful
enumerations still appears in the `Done` payload, and no `Error` event is
emitted. -/
theorem c6_pruned_branch_tolerance (client : Client) (backend : ChildrenMap)
    (height : String) (H bad x : Nat)
    (hparse : from_str_radix_16 (trim_start_matches_0x height.toList) = some H)
    (hgt : client.finalized_number < H)
    (hbad : childrenOf backend bad = .error ())
    (hx : x ∈ reachAt backend (H - client.finalized_number)
      client.finalized_hash) :
    ∃ r, archive_unstable_hash_by_height client backend height =
        [.send (.Done r)] ∧ x ∈ r := by
  refine ⟨get_blocks_by_height backend
    (HashAndNumber.mk client.finalized_number client.finalized_hash) H,
    ?_, ?_⟩
  · simp only [archive_unstable_hash_by_height, hparse, ge_iff_le,
      Nat.not_le.mpr hgt, if_false]
  · rw [get_blocks_by_height_mem backend _ H (Nat.le_of_lt hgt) x]
    exact hx

theorem c6_witness :
    childrenOf backendPruned 1 = .error () ∧
    ∃ r, archive_unstable_hash_by_height clientNone backendPruned "2" =
        [.send (.Done r)] ∧ 4 ∈ r :=
  ⟨by decide,
   c6_pruned_branch_tolerance clientNone backendPruned "2" 2 1 4 (by decide)
     (by decide) (by decide) (by decide)⟩

/-- Claim C5, counterexample: `"100000000"` is parseable as hexadecimal
(nine hex digits, no prefix) yet names a value of `2 ^ 32`, which overflows
the `u32` height parse, so `hashByHeight` rejects it — refuting "a height
string parseable as hexadecimal (optionally 0x-prefixed) is never
rejected". -/
theorem c5_counterexample_overflow :
    specIsHexParseable "100000000" = true ∧
    archive_unstable_hash_by_height clientNone [] "100000000" =
      [.reject (.InvalidParam "100000000")] := by
  constructor
  · decide
  · decide

/-- Claim C5 as amended: malformed hex input on the storage key, the child
key, or the height string produces exactly one synchronous rejection carrying
the offending raw string and no `ArchiveEvent`; conversely a height string
whose (optionally `"0x"`-prefixed) hexadecimal value parses as a 32-bit
unsigned integer is never rejected and yields a single `Done` event with the
resolver's hash list. -/
theorem c5_rejection_surface (client : Client) (backend : ChildrenMap)
    (hash : Nat) (key ck height : String) :
    (hex2bytes key = .error () →
      archive_unstable_storage client hash key none =
          [.reject (.InvalidParam key)] ∧
        archive_unstable_storage client hash key (some ck) =
          [.reject (.InvalidParam key)]) ∧
    (∀ keyBytes, hex2bytes key = .ok keyBytes → hex2bytes ck = .error () →
      archive_unstable_storage client hash key (some ck) =
        [.reject (.InvalidParam ck)]) ∧
    (from_str_radix_16 (trim_start_matches_0x height.toList) = none →
      archive_unstable_hash_by_height client backend height =
        [.reject (.InvalidParam height)]) ∧
    (∀ H, from_str_radix_16 (trim_start_matches_0x height.toList) = some H →
      ∃ r, archive_unstable_hash_by_height client backend height =
        [.send (.Done r)]) := by
  refine ⟨?_, ?_, ?_, ?_⟩
  · intro hk
    constructor <;> simp [archive_unstable_storage, parse_hex_param, hk]
  · intro keyBytes hk hck
    simp [archive_unstable_storage, parse_hex_param, hk, hck]
  · intro hp
    simp only [archive_unstable_hash_by_height, hp]
  · intro H hp
    by_cases hge : H ≤ client.finalized_number
    · refine ⟨(match client.block_hash H with
        | .ok (some h) => [h]
        | _ => []), ?_⟩
      simp only [archive_unstable_hash_by_height, hp, ge_iff_le, hge, if_true]
    · have hlt : client.finalized_number < H := Nat.not_le.mp hge
      refine ⟨get_blocks_by_height backend
        (HashAndNumber.mk client.finalized_number client.finalized_hash) H, ?_⟩
      simp only [archive_unstable_hash_by_height, hp, ge_iff_le,
        Nat.not_le.mpr hlt, if_false]

theorem c5_witness :
    archive_unstable_storage clientNone 0 "not-hex" none =
      [.reject (.InvalidParam "not-hex")] ∧
    archive_unstable_storage clientNone 0 "00" (some "zz") =
      [.reject (.InvalidParam "zz")] ∧
    archive_unstable_hash_by_height clientNone [] "0x" =
      [.reject (.InvalidParam "0x")] ∧
    ∃ r, archive_unstable_hash_by_height clientNone [] "0x05" =
      [.send (.Done r)] :=
  ⟨((c5_rejection_surface clientNone [] 0 "not-hex" "zz" "0x").1
      (by decide)).1,
   (c5_rejection_surface clientNone [] 0 "00" "zz" "0x").2.1 [0] (by decide)
     (by decide),
   (c5_rejection_surface clientNone [] 0 "00" "zz" "0x").2.2.1 (by decide),
   (c5_rejection_surface clientNone [] 0 "00" "zz" "0x05").2.2.2 5
     (by decide)⟩
